import Mathlib

/-
Verification of the line-selection algorithm of the `zen` command
(`Utils.zen` in `bot/exts/utils/utils.py`): given a corpus of text lines
and a selector (an integer index or a text query), resolve the selector
to one line, or fail.

Modelling conventions:
* a Python string is a list of Unicode code points (`Str := List Nat`);
  lowercasing is modelled at the ASCII level (which covers the corpus),
  and uppercasing additionally carries the one-to-many special casing of
  eszett, `"ß".upper() = "SS"`, under which case-insensitivity of queries
  fails in Python;
* the floating-point scores of the code are modelled by exact rational
  arithmetic; since every defined adjusted score is a nonnegative real
  `sqrt(len(line) - 5) * r`, it is represented by its square
  `(len(line) - 5) * r ^ 2`, and the strict comparison of scores in the
  code is exactly the strict comparison of the squares;
* for a line shorter than 5 characters, Python evaluates
  `(len(line) - 5) ** 0.5` to a complex number and the comparison
  `adjusted_ratio > best_ratio` then raises `TypeError`; this uncaught
  exception is modelled by the result `ZenResult.crash`;
* the junk heuristic of `difflib.SequenceMatcher` that only activates on
  second sequences longer than 200 characters is not modelled; every
  line of the corpus is far shorter.
-/

namespace Zen

/-- A Python string is modelled as the list of its Unicode code points. -/
abbrev Str := List Nat

/-- Embed a Lean string literal into the code-point model. -/
def ofString (s : String) : Str := s.data.map Char.toNat

/-- Code-point version of Python `str.lower` (ASCII case mapping). -/
def pyLowerCp (c : Nat) : Nat := if 65 ≤ c ∧ c ≤ 90 then c + 32 else c

/-- Full uppercase expansion of one code point under Python `str.upper`:
a code point may expand to several, as in the special casing
`"ß".upper() = "SS"`. Modelled for ASCII and for eszett (U+00DF), which
covers the corpus and the queries considered; other code points are
left unchanged. -/
def pyUpperMap (c : Nat) : List Nat :=
  if 97 ≤ c ∧ c ≤ 122 then [c - 32]
  else if c = 223 then [83, 83]
  else [c]

/-- Python `s.lower()`. -/
def pyLower (s : Str) : Str := s.map pyLowerCp

/-- Python `s.upper()`: concatenation of the uppercase expansions of the
code points. -/
def pyUpper : Str → Str
  | [] => []
  | c :: cs => pyUpperMap c ++ pyUpper cs

/-- ASCII whitespace recognised by Python `str.split`. -/
def isSpaceCp (c : Nat) : Bool :=
  c = 32 || c = 9 || c = 10 || c = 13 || c = 11 || c = 12

/-- Helper for `words`: the accumulator holds the current word reversed. -/
def wordsAux : Str → Str → List Str
  | [], acc => if acc = [] then [] else [acc.reverse]
  | c :: cs, acc =>
      if isSpaceCp c then
        if acc = [] then wordsAux cs [] else acc.reverse :: wordsAux cs []
      else wordsAux cs (c :: acc)

/-- Python `line.split()`: split on runs of whitespace, producing no empty
words. -/
def words (s : Str) : List Str := wordsAux s []

/-- Test of one line in the phase-1 scan of `Utils.zen`: does some
whitespace-delimited word of the line equal the query, case-insensitively
(`word.lower() == search_value.lower()`). -/
def lineHasWord (q line : Str) : Bool :=
  (words line).any fun w => pyLower w == pyLower q

/-- Phase 1 of `Utils.zen`: scan lines in corpus order and return the first
line that has an exact case-insensitive whole-word match with the query,
together with its index. -/
def phase1 (q : Str) : List Str → Nat → Option (Str × Nat)
  | [], _ => none
  | line :: rest, i =>
      if lineHasWord q line then some (line, i) else phase1 q rest (i + 1)

/-- Length of the common prefix of two strings: the matching run starting at
a given pair of positions. -/
def commonRun : Str → Str → Nat
  | x :: xs, y :: ys => if x = y then commonRun xs ys + 1 else 0
  | _, _ => 0

/-- Inner scan of the longest-match search of `difflib.SequenceMatcher`:
over all start positions `j` of `b`, the first pair `(j, k)` whose run
length `k` against `sa` is maximal (later runs replace the candidate only
when strictly longer). -/
def flmInner (sa : Str) : Str → Nat → Nat × Nat → Nat × Nat
  | [], _, best => best
  | y :: ys, j, best =>
      if best.2 < commonRun sa (y :: ys) then
        flmInner sa ys (j + 1) (j, commonRun sa (y :: ys))
      else flmInner sa ys (j + 1) best

/-- Outer scan of the longest-match search: over all start positions `i` of
`a`, the first triple `(i, j, k)` whose run length `k` is maximal. -/
def flmOuter (b : Str) : Str → Nat → Nat × Nat × Nat → Nat × Nat × Nat
  | [], _, best => best
  | x :: xs, i, best =>
      if best.2.2 < (flmInner (x :: xs) b 0 (0, 0)).2 then
        flmOuter b xs (i + 1)
          (i, (flmInner (x :: xs) b 0 (0, 0)).1, (flmInner (x :: xs) b 0 (0, 0)).2)
      else flmOuter b xs (i + 1) best

/-- The longest matching block of two strings, as
`difflib.SequenceMatcher.find_longest_match` computes it with no junk:
the longest common contiguous run, ties resolved to the smallest start in
`a` and then the smallest start in `b`. -/
def findLongest (a b : Str) : Nat × Nat × Nat := flmOuter b a 0 (0, 0, 0)

/-- Total size of the matching blocks of `difflib.get_matching_blocks`:
recursion on the slices to each side of the longest match. The fuel only
bounds the recursion depth; `matched` supplies enough of it. -/
def matchedAux : Nat → Str → Str → Nat
  | 0, _, _ => 0
  | fuel + 1, a, b =>
      if (findLongest a b).2.2 = 0 then 0
      else
        matchedAux fuel (a.take (findLongest a b).1) (b.take (findLongest a b).2.1) +
          (findLongest a b).2.2 +
          matchedAux fuel (a.drop ((findLongest a b).1 + (findLongest a b).2.2))
            (b.drop ((findLongest a b).2.1 + (findLongest a b).2.2))

/-- Total number of matched characters of the two strings. -/
def matched (a b : Str) : Nat := matchedAux (a.length + b.length + 1) a b

/-- Similarity measure of `difflib.SequenceMatcher.ratio()`: `2*M/T` where
`M` is the total size of the matching blocks and `T` the total length, and
`1` when both strings are empty. -/
def similarity (a b : Str) : ℚ :=
  if a.length + b.length = 0 then 1
  else 2 * (matched a b : ℚ) / ((a.length : ℚ) + (b.length : ℚ))

/-- Square of the adjusted score of phase 2,
`adjusted_ratio = (len(line) - 5) ** 0.5 * matcher.ratio()`: for a line of
length at least 5 the adjusted score is the nonnegative real
`sqrt(len(line) - 5) * r`, represented here by its square
`(len(line) - 5) * r ^ 2`; squaring preserves order and equality of the
nonnegative scores, so the strict comparisons of the loop are unchanged. -/
def scoreSq (q line : Str) : ℚ :=
  ((line.length : ℚ) - 5) * (similarity (pyLower q) (pyLower line)) ^ 2

/-- The adjusted score of a line (in squared representation), or `none`
when `len(line) < 5`: there `(len(line) - 5) ** 0.5` is a complex number in
Python and the comparison `adjusted_ratio > best_ratio` raises `TypeError`. -/
def adjustedSq (q line : Str) : Option ℚ :=
  if line.length < 5 then none else some (scoreSq q line)

/-- Formula of the spec, `adjustedScore = sqrt(max(len(line) - 5, 0)) * rawRatio`,
in the same squared representation, for comparison against the code formula
`adjustedSq`. -/
def specAdjustedScoreSq (q line : Str) : ℚ :=
  max ((line.length : ℚ) - 5) 0 * (similarity (pyLower q) (pyLower line)) ^ 2

/-- Selector of a line: an integer index or a text query (the unset case is
handled outside the algorithm). -/
inductive Selector where
  | index (n : Int)
  | query (s : Str)

/-- Result of the line selection: a matched line with its index label, one
of the two classified failures, or an uncaught runtime error (`crash`,
raised by Python as a `TypeError` when a complex adjusted score is
compared, or as an `IndexError` on an impossible list access). -/
inductive ZenResult where
  | ok (line : Str) (index : Nat)
  | outOfRange (lowerBound upperBound : Int)
  | noMatch
  | crash
deriving DecidableEq

/-- Python list indexing `corpus[n]` with negative-index support; `none`
models `IndexError`. -/
def pyGet (corpus : List Str) (n : Int) : Option Str :=
  if 0 ≤ n then corpus[n.toNat]?
  else if 0 ≤ n + (corpus.length : Int) then corpus[(n + (corpus.length : Int)).toNat]?
  else none

/-- Loop of phase 2 of `Utils.zen`: track the best line, its index and its
best (squared) adjusted score, replacing the candidate only on a strictly
greater score; a line shorter than 5 characters makes the comparison raise
(`crash`). At the end, an empty `best_match` (never updated) yields
`noMatch`. -/
def phase2Aux (q : Str) : List Str → Nat → Str → Nat → ℚ → ZenResult
  | [], _, best, bidx, _ =>
      if best = [] then ZenResult.noMatch else ZenResult.ok best bidx
  | line :: rest, i, best, bidx, bestSq =>
      if line.length < 5 then ZenResult.crash
      else if bestSq < scoreSq q line then
        phase2Aux q rest (i + 1) line i (scoreSq q line)
      else phase2Aux q rest (i + 1) best bidx bestSq

/-- Phase 2 of `Utils.zen`: fuzzy best-match fallback over the whole
corpus, starting from the empty best match and a zero best score. -/
def phase2 (q : Str) (corpus : List Str) : ZenResult :=
  phase2Aux q corpus 0 [] 0 0

/-- The line-selection algorithm of `Utils.zen`. An integer selector is
bounds-checked against the closed interval `[-L, L-1]` and then used as a
Python list index, with the returned index label `n % L` (Python modulo);
a query selector goes through phase 1 (exact whole-word match) and then
phase 2 (fuzzy best match). -/
def resolve (corpus : List Str) : Selector → ZenResult
  | Selector.index n =>
      if ¬ (-(corpus.length : Int) ≤ n ∧ n ≤ (corpus.length : Int) - 1) then
        ZenResult.outOfRange (-(corpus.length : Int)) ((corpus.length : Int) - 1)
      else
        match pyGet corpus n with
        | some line => ZenResult.ok line (n % (corpus.length : Int)).toNat
        | none => ZenResult.crash
  | Selector.query s =>
      match phase1 s corpus 0 with
      | some (line, i) => ZenResult.ok line i
      | none => phase2 s corpus

/-- The fixed corpus of the `zen` command: `ZEN_OF_PYTHON.splitlines()`. -/
def zenLines : List Str :=
  [ofString "Beautiful is better than ugly.",
   ofString "Explicit is better than implicit.",
   ofString "Simple is better than complex.",
   ofString "Complex is better than complicated.",
   ofString "Flat is better than nested.",
   ofString "Sparse is better than dense.",
   ofString "Readability counts.",
   ofString "Special cases aren\x27t special enough to break the rules.",
   ofString "Although practicality beats purity.",
   ofString "Errors should never pass silently.",
   ofString "Unless explicitly silenced.",
   ofString "In the face of ambiguity, refuse the temptation to guess.",
   ofString "There should be one-- and preferably only one --obvious way to do it.",
   ofString "Although that way may not be obvious at first unless you\x27re Dutch.",
   ofString "Now is better than never.",
   ofString "Although never is often better than *right* now.",
   ofString "If the implementation is hard to explain, it\x27s a bad idea.",
   ofString "If the implementation is easy to explain, it may be a good idea.",
   ofString "Namespaces are one honking great idea -- let\x27s do more of those!"]

theorem pyLower_pyUpperMap {c : Nat} (h : c < 128) :
    (pyUpperMap c).map pyLowerCp = [pyLowerCp c] := by
  by_cases h1 : 97 ≤ c ∧ c ≤ 122
  · rw [pyUpperMap, if_pos h1, List.map_cons, List.map_nil]
    have h2 : 65 ≤ c - 32 ∧ c - 32 ≤ 90 := by omega
    have h3 : ¬ (65 ≤ c ∧ c ≤ 90) := by omega
    rw [pyLowerCp, if_pos h2, pyLowerCp, if_neg h3]
    have h4 : c - 32 + 32 = c := by omega
    rw [h4]
  · rw [pyUpperMap, if_neg h1, if_neg (by omega : ¬ c = 223), List.map_cons, List.map_nil]

theorem pyLower_pyUpper_ascii {s : Str} (h : ∀ c ∈ s, c < 128) :
    pyLower (pyUpper s) = pyLower s := by
  induction s with
  | nil => rfl
  | cons c cs ih =>
      have hc : c < 128 := h c (List.mem_cons_self c cs)
      have hcs : ∀ x ∈ cs, x < 128 := fun x hx => h x (List.mem_cons.mpr (Or.inr hx))
      show pyLower (pyUpperMap c ++ pyUpper cs) = pyLower (c :: cs)
      rw [pyLower, pyLower, List.map_append, List.map_cons]
      rw [pyLower_pyUpperMap hc]
      rw [← pyLower, ← pyLower, ih hcs]
      rfl

theorem pyLower_length (s : Str) : (pyLower s).length = s.length :=
  List.length_map s pyLowerCp

theorem pyLower_eq_nil {s : Str} : pyLower s = [] ↔ s = [] := by
  simp [pyLower]

theorem wordsAux_ne_nil (s : Str) :
    ∀ (acc w : Str), w ∈ wordsAux s acc → w ≠ [] := by
  induction s with
  | nil =>
      intro acc w hw
      by_cases ha : acc = []
      · simp [wordsAux, ha] at hw
      · simp only [wordsAux, if_neg ha, List.mem_singleton] at hw
        subst hw
        simpa using ha
  | cons c cs ih =>
      intro acc w hw
      by_cases hsp : isSpaceCp c = true
      · rw [wordsAux, if_pos hsp] at hw
        by_cases ha : acc = []
        · rw [if_pos ha] at hw
          exact ih [] w hw
        · rw [if_neg ha] at hw
          rcases List.mem_cons.mp hw with h | h
          · subst h
            simpa using ha
          · exact ih [] w h
      · rw [wordsAux, if_neg hsp] at hw
        exact ih (c :: acc) w hw

theorem words_ne_nil {s w : Str} (hw : w ∈ words s) : w ≠ [] :=
  wordsAux_ne_nil s [] w hw

theorem lineHasWord_empty_query (line : Str) : lineHasWord [] line = false := by
  unfold lineHasWord
  rw [List.any_eq_false]
  intro w hw
  have h1 : pyLower w ≠ [] := by
    rw [Ne, pyLower_eq_nil]
    exact words_ne_nil hw
  simpa [pyLower] using h1

theorem phase1_none_iff {q : Str} :
    ∀ (lines : List Str) (i : Nat),
      phase1 q lines i = none ↔ ∀ l ∈ lines, lineHasWord q l = false := by
  intro lines
  induction lines with
  | nil => intro i; simp [phase1]
  | cons line rest ih =>
      intro i
      by_cases hl : lineHasWord q line
      · simp [phase1, hl]
      · simp only [phase1, if_neg hl, ih (i + 1), List.mem_cons]
        constructor
        · intro h l hml
          rcases hml with rfl | hml
          · simpa using hl
          · exact h l hml
        · intro h l hml
          exact h l (Or.inr hml)

theorem phase1_some_spec {q : Str} :
    ∀ (lines : List Str) (i : Nat) (l : Str) (r : Nat),
      phase1 q lines i = some (l, r) →
      ∃ j, r = i + j ∧ lines[j]? = some l ∧ lineHasWord q l = true := by
  intro lines
  induction lines with
  | nil => intro i l r h; simp [phase1] at h
  | cons line rest ih =>
      intro i l r h
      by_cases hl : lineHasWord q line
      · rw [phase1, if_pos hl] at h
        injection h with h
        injection h with h1 h2
        subst h1; subst h2
        exact ⟨0, by omega, by simp, hl⟩
      · rw [phase1, if_neg hl] at h
        obtain ⟨j, hj1, hj2, hj3⟩ := ih (i + 1) l r h
        exact ⟨j + 1, by omega, by simpa using hj2, hj3⟩

theorem phase1_some_first {q : Str} :
    ∀ (lines : List Str) (i j : Nat) (lj : Str),
      lines[j]? = some lj → lineHasWord q lj = true →
      (∀ m lm, m < j → lines[m]? = some lm → lineHasWord q lm = false) →
      phase1 q lines i = some (lj, i + j) := by
  intro lines
  induction lines with
  | nil => intro i j lj hj; simp at hj
  | cons line rest ih =>
      intro i j lj hj hw hfirst
      cases j with
      | zero =>
          rw [List.getElem?_cons_zero] at hj
          injection hj with hj
          subst hj
          rw [phase1, if_pos hw]
          simp
      | succ j =>
          have hline : lineHasWord q line = false :=
            hfirst 0 line (Nat.succ_pos j) (by simp)
          rw [phase1, if_neg (by simp [hline])]
          rw [List.getElem?_cons_succ] at hj
          have hrec := ih (i + 1) j lj hj hw ?_
          · have h3 : i + 1 + j = i + (j + 1) := by omega
            rw [h3] at hrec
            exact hrec
          · intro m lm hm hmm
            exact hfirst (m + 1) lm (by omega) (by simpa using hmm)

theorem matched_nil_left (b : Str) : matched [] b = 0 := by
  have h : ([] : Str).length + b.length + 1 = b.length + 1 := by simp
  rw [matched, h, matchedAux]
  simp [findLongest, flmOuter]

theorem similarity_nil_left {b : Str} (hb : 0 < b.length) : similarity [] b = 0 := by
  rw [similarity, if_neg (by simpa using Nat.pos_iff_ne_zero.mp hb)]
  rw [matched_nil_left]
  simp

theorem scoreSq_nonneg {q line : Str} (h : 5 ≤ line.length) : 0 ≤ scoreSq q line := by
  apply mul_nonneg
  · have h5 : (5 : ℚ) ≤ (line.length : ℚ) := by exact_mod_cast h
    linarith
  · exact sq_nonneg _

theorem scoreSq_empty_query {line : Str} (h : 5 ≤ line.length) : scoreSq [] line = 0 := by
  have hlen : 0 < (pyLower line).length := by rw [pyLower_length]; omega
  rw [scoreSq]
  have hq : pyLower ([] : Str) = [] := rfl
  rw [hq, similarity_nil_left hlen]
  ring

theorem phase2Aux_ne_noMatch (q : Str) :
    ∀ (lines : List Str) (i : Nat) (best : Str) (bidx : Nat) (bestSq : ℚ),
      best ≠ [] →
      phase2Aux q lines i best bidx bestSq ≠ ZenResult.noMatch := by
  intro lines
  induction lines with
  | nil =>
      intro i best bidx bestSq hb
      rw [phase2Aux, if_neg hb]
      exact fun h => ZenResult.noConfusion h
  | cons line rest ih =>
      intro i best bidx bestSq hb
      rw [phase2Aux]
      by_cases h5 : line.length < 5
      · rw [if_pos h5]
        exact fun h => ZenResult.noConfusion h
      · rw [if_neg h5]
        have hline : line ≠ [] := by
          intro h
          rw [h] at h5
          simp at h5
        by_cases hup : bestSq < scoreSq q line
        · rw [if_pos hup]
          exact ih (i + 1) line i (scoreSq q line) hline
        · rw [if_neg hup]
          exact ih (i + 1) best bidx bestSq hb

theorem phase2Aux_noMatch_iff (q : Str) :
    ∀ (lines : List Str) (i bidx : Nat),
      (phase2Aux q lines i [] bidx 0 = ZenResult.noMatch ↔
        ∀ x ∈ lines, 5 ≤ x.length ∧ scoreSq q x ≤ 0) := by
  intro lines
  induction lines with
  | nil => intro i bidx; simp [phase2Aux]
  | cons line rest ih =>
      intro i bidx
      rw [phase2Aux]
      by_cases h5 : line.length < 5
      · rw [if_pos h5]
        constructor
        · intro h
          exact absurd h (fun h => ZenResult.noConfusion h)
        · intro h
          have := (h line (List.mem_cons_self line rest)).1
          omega
      · rw [if_neg h5]
        have hline : line ≠ [] := by
          intro h
          rw [h] at h5
          simp at h5
        by_cases hup : (0 : ℚ) < scoreSq q line
        · rw [if_pos hup]
          constructor
          · intro h
            exact absurd h (phase2Aux_ne_noMatch q rest (i + 1) line i _ hline)
          · intro h
            have h2 := (h line (List.mem_cons_self line rest)).2
            exact absurd hup (not_lt.mpr h2)
        · rw [if_neg hup]
          rw [ih (i + 1) bidx]
          constructor
          · intro h x hx
            rcases List.mem_cons.mp hx with rfl | hx
            · exact ⟨Nat.not_lt.mp h5, not_lt.mp hup⟩
            · exact h x hx
          · intro h x hx
            exact h x (List.mem_cons.mpr (Or.inr hx))

theorem phase2Aux_ok_spec (q : Str) :
    ∀ (lines : List Str) (i : Nat) (best : Str) (bidx : Nat) (bestSq : ℚ)
      (l : Str) (r : Nat),
      phase2Aux q lines i best bidx bestSq = ZenResult.ok l r →
      (∀ x ∈ lines, 5 ≤ x.length) ∧
      ((l = best ∧ r = bidx ∧ best ≠ [] ∧
          ∀ (j : Nat) (lj : Str), lines[j]? = some lj → scoreSq q lj ≤ bestSq) ∨
        (∃ j : Nat, lines[j]? = some l ∧ r = i + j ∧ bestSq < scoreSq q l ∧
          (∀ (m : Nat) (lm : Str), lines[m]? = some lm → scoreSq q lm ≤ scoreSq q l) ∧
          (∀ (m : Nat) (lm : Str), m < j → lines[m]? = some lm →
            scoreSq q lm < scoreSq q l))) := by
  intro lines
  induction lines with
  | nil =>
      intro i best bidx bestSq l r h
      by_cases hb : best = []
      · rw [phase2Aux, if_pos hb] at h
        exact absurd h (fun h => ZenResult.noConfusion h)
      · rw [phase2Aux, if_neg hb] at h
        injection h with h1 h2
        refine ⟨by simp, Or.inl ⟨h1.symm, h2.symm, hb, ?_⟩⟩
        intro j lj hj
        simp at hj
  | cons line rest ih =>
      intro i best bidx bestSq l r h
      rw [phase2Aux] at h
      by_cases h5 : line.length < 5
      · rw [if_pos h5] at h
        exact absurd h (fun h => ZenResult.noConfusion h)
      · rw [if_neg h5] at h
        have hlen : 5 ≤ line.length := Nat.not_lt.mp h5
        by_cases hup : bestSq < scoreSq q line
        · rw [if_pos hup] at h
          obtain ⟨hall5, hd⟩ := ih (i + 1) line i (scoreSq q line) l r h
          refine ⟨?_, ?_⟩
          · intro x hx
            rcases List.mem_cons.mp hx with rfl | hx
            · exact hlen
            · exact hall5 x hx
          · rcases hd with ⟨hl, hr, hne, hle⟩ | ⟨j, hj, hr, hlt, hle, hstrict⟩
            · subst hl
              refine Or.inr ⟨0, by simp, by omega, hup, ?_, ?_⟩
              · intro m lm hm
                cases m with
                | zero =>
                    rw [List.getElem?_cons_zero] at hm
                    injection hm with hm
                    subst hm
                    exact le_refl _
                | succ m =>
                    rw [List.getElem?_cons_succ] at hm
                    exact hle m lm hm
              · intro m lm hmlt hm
                omega
            · refine Or.inr ⟨j + 1, by simpa using hj, by omega, lt_trans hup hlt, ?_, ?_⟩
              · intro m lm hm
                cases m with
                | zero =>
                    rw [List.getElem?_cons_zero] at hm
                    injection hm with hm
                    subst hm
                    exact le_of_lt hlt
                | succ m =>
                    rw [List.getElem?_cons_succ] at hm
                    exact hle m lm hm
              · intro m lm hmlt hm
                cases m with
                | zero =>
                    rw [List.getElem?_cons_zero] at hm
                    injection hm with hm
                    subst hm
                    exact hlt
                | succ m =>
                    rw [List.getElem?_cons_succ] at hm
                    exact hstrict m lm (by omega) hm
        · rw [if_neg hup] at h
          obtain ⟨hall5, hd⟩ := ih (i + 1) best bidx bestSq l r h
          have hnle : scoreSq q line ≤ bestSq := not_lt.mp hup
          refine ⟨?_, ?_⟩
          · intro x hx
            rcases List.mem_cons.mp hx with rfl | hx
            · exact hlen
            · exact hall5 x hx
          · rcases hd with ⟨hl, hr, hne, hle⟩ | ⟨j, hj, hr, hlt, hle, hstrict⟩
            · refine Or.inl ⟨hl, hr, hne, ?_⟩
              intro m lm hm
              cases m with
              | zero =>
                  rw [List.getElem?_cons_zero] at hm
                  injection hm with hm
                  subst hm
                  exact hnle
              | succ m =>
                  rw [List.getElem?_cons_succ] at hm
                  exact hle m lm hm
            · refine Or.inr ⟨j + 1, by simpa using hj, by omega, hlt, ?_, ?_⟩
              · intro m lm hm
                cases m with
                | zero =>
                    rw [List.getElem?_cons_zero] at hm
                    injection hm with hm
                    subst hm
                    exact le_trans hnle (le_of_lt hlt)
                | succ m =>
                    rw [List.getElem?_cons_succ] at hm
                    exact hle m lm hm
              · intro m lm hmlt hm
                cases m with
                | zero =>
                    rw [List.getElem?_cons_zero] at hm
                    injection hm with hm
                    subst hm
                    exact lt_of_le_of_lt hnle hlt
                | succ m =>
                    rw [List.getElem?_cons_succ] at hm
                    exact hstrict m lm (by omega) hm

theorem emod_norm (n L : Int) : (n % L + L) % L = n % L := by
  have h1 : (n % L + L) % L = (n % L) % L := by
    have h2 := @Int.add_mul_emod_self_left (n % L) L 1
    rw [mul_one] at h2
    exact h2
  rw [h1, Int.emod_emod_of_dvd n dvd_rfl]

theorem length_pos_of_in_range {cor : List Str} {n : Int}
    (h1 : -(cor.length : Int) ≤ n) (h2 : n ≤ (cor.length : Int) - 1) : 0 < cor.length := by
  by_contra h
  have h0 : cor.length = 0 := by omega
  rw [h0] at h1 h2
  simp at h1 h2
  omega

theorem emod_in_range {cor : List Str} {n : Int}
    (h1 : -(cor.length : Int) ≤ n) (h2 : n ≤ (cor.length : Int) - 1) :
    0 ≤ n % (cor.length : Int) ∧ n % (cor.length : Int) < (cor.length : Int) := by
  have hL : 0 < cor.length := length_pos_of_in_range h1 h2
  have hLz : (cor.length : Int) ≠ 0 := by exact_mod_cast Nat.pos_iff_ne_zero.mp hL
  exact ⟨Int.emod_nonneg n hLz, Int.emod_lt_of_pos n (by exact_mod_cast hL)⟩

theorem pyGet_in_range {cor : List Str} {n : Int}
    (h1 : -(cor.length : Int) ≤ n) (h2 : n ≤ (cor.length : Int) - 1) :
    pyGet cor n = cor[(n % (cor.length : Int)).toNat]? := by
  have hL : 0 < cor.length := length_pos_of_in_range h1 h2
  rw [pyGet]
  by_cases hn : 0 ≤ n
  · rw [if_pos hn]
    have he : n % (cor.length : Int) = n :=
      Int.emod_eq_of_lt hn (by omega)
    rw [he]
  · rw [if_neg hn]
    have hm : 0 ≤ n + (cor.length : Int) := by omega
    rw [if_pos hm]
    have he : n % (cor.length : Int) = n + (cor.length : Int) := by
      have h3 : (n + (cor.length : Int)) % (cor.length : Int) = n % (cor.length : Int) := by
        have h4 := @Int.add_mul_emod_self_left n (cor.length : Int) 1
        rw [mul_one] at h4
        exact h4
      rw [← h3]
      exact Int.emod_eq_of_lt hm (by omega)
    rw [he]

theorem resolve_index_in_range {cor : List Str} {n : Int}
    (h1 : -(cor.length : Int) ≤ n) (h2 : n ≤ (cor.length : Int) - 1) :
    ∃ line, (cor[(n % (cor.length : Int)).toNat]? = some line) ∧
      resolve cor (Selector.index n) = ZenResult.ok line (n % (cor.length : Int)).toNat := by
  obtain ⟨hm0, hmL⟩ := emod_in_range h1 h2
  have hidx : (n % (cor.length : Int)).toNat < cor.length := by omega
  have hget := List.getElem?_eq_getElem hidx
  refine ⟨_, hget, ?_⟩
  rw [resolve, if_neg (not_not_intro ⟨h1, h2⟩)]
  rw [pyGet_in_range h1 h2, hget]

theorem resolve_index_out_of_range {cor : List Str} {n : Int}
    (h : ¬ (-(cor.length : Int) ≤ n ∧ n ≤ (cor.length : Int) - 1)) :
    resolve cor (Selector.index n) =
      ZenResult.outOfRange (-(cor.length : Int)) ((cor.length : Int) - 1) := by
  rw [resolve, if_pos h]

theorem lineHasWord_congr {q1 q2 : Str} (h : pyLower q1 = pyLower q2) (line : Str) :
    lineHasWord q1 line = lineHasWord q2 line := by
  simp [lineHasWord, h]

theorem scoreSq_congr {q1 q2 : Str} (h : pyLower q1 = pyLower q2) (line : Str) :
    scoreSq q1 line = scoreSq q2 line := by
  simp [scoreSq, h]

theorem phase1_congr {q1 q2 : Str} (h : pyLower q1 = pyLower q2) :
    ∀ (lines : List Str) (i : Nat), phase1 q1 lines i = phase1 q2 lines i := by
  intro lines
  induction lines with
  | nil => intro i; rfl
  | cons line rest ih =>
      intro i
      rw [phase1, phase1, lineHasWord_congr h line, ih (i + 1)]

theorem phase2Aux_congr {q1 q2 : Str} (h : pyLower q1 = pyLower q2) :
    ∀ (lines : List Str) (i : Nat) (best : Str) (bidx : Nat) (bestSq : ℚ),
      phase2Aux q1 lines i best bidx bestSq = phase2Aux q2 lines i best bidx bestSq := by
  intro lines
  induction lines with
  | nil => intro i best bidx bestSq; rfl
  | cons line rest ih =>
      intro i best bidx bestSq
      rw [phase2Aux, phase2Aux, scoreSq_congr h line]
      by_cases h5 : line.length < 5
      · rw [if_pos h5, if_pos h5]
      · rw [if_neg h5, if_neg h5]
        by_cases hup : bestSq < scoreSq q2 line
        · rw [if_pos hup, if_pos hup, ih]
        · rw [if_neg hup, if_neg hup, ih]

theorem resolve_query_congr {q1 q2 : Str} (h : pyLower q1 = pyLower q2) (c : List Str) :
    resolve c (Selector.query q1) = resolve c (Selector.query q2) := by
  rw [resolve, resolve, phase1_congr h c 0]
  have h2 : phase2 q1 c = phase2 q2 c := by
    rw [phase2, phase2]
    exact phase2Aux_congr h c 0 [] 0 0
  rw [h2]

/-- C1, counterexample: for the line `"abc"` (shorter than 5 characters) and
query `"x"`, the claimed clamped formula gives adjusted score 0, but the code
has no real adjusted score at all: `(len("abc") - 5) ** 0.5` is a complex
number, and resolving the query over a corpus containing that line crashes
with a `TypeError` instead of treating the score as 0. -/
theorem zen_c1_short_line_cex :
    (ofString "abc").length < 5 ∧
    adjustedSq (ofString "x") (ofString "abc") = none ∧
    specAdjustedScoreSq (ofString "x") (ofString "abc") = 0 ∧
    resolve [ofString "abc"] (Selector.query (ofString "x")) = ZenResult.crash := by
  refine ⟨by decide, by decide, ?_, by decide⟩
  have h0 : ((ofString "abc").length : ℚ) - 5 ≤ 0 := by
    norm_num [ofString]
  rw [specAdjustedScoreSq, max_eq_right h0]
  ring

/-- C1, amended: in phase 2 the adjusted score of a line of length at least 5
equals the spec formula `sqrt(max(len(line) - 5, 0)) * rawRatio` (stated here
in the squared representation); for a line shorter than 5 characters the code
does not clamp the factor to 0 but produces a complex value whose comparison
raises `TypeError`, so no adjusted score exists for it. -/
theorem zen_c1_adjusted_score_formula (q line : Str) :
    (5 ≤ line.length → adjustedSq q line = some (specAdjustedScoreSq q line)) ∧
    (line.length < 5 → adjustedSq q line = none) := by
  constructor
  · intro h
    have h0 : (0 : ℚ) ≤ (line.length : ℚ) - 5 := by
      have h5 : (5 : ℚ) ≤ (line.length : ℚ) := by exact_mod_cast h
      linarith
    rw [adjustedSq, if_neg (Nat.not_lt.mpr h), scoreSq, specAdjustedScoreSq,
      max_eq_left h0]
  · intro h
    rw [adjustedSq, if_pos h]

/-- Witness for C1 at the lines `"hello"` (length 5) and `"hi"` (length 2). -/
theorem zen_c1_adjusted_score_formula_witness :
    adjustedSq (ofString "x") (ofString "hello") =
      some (specAdjustedScoreSq (ofString "x") (ofString "hello")) ∧
    adjustedSq (ofString "x") (ofString "hi") = none :=
  ⟨(zen_c1_adjusted_score_formula (ofString "x") (ofString "hello")).1 (by decide),
   (zen_c1_adjusted_score_formula (ofString "x") (ofString "hi")).2 (by decide)⟩

/-- C2: when some line of the corpus contains an exact case-insensitive
whole-word match for the query, `resolve` returns the first such line (in
corpus order) together with its index, whatever the later lines are; phase 2
and its fuzzy similarity are never consulted. -/
theorem zen_c2_first_exact_word_wins (corpus : List Str) (q : Str) (j : Nat)
    (lj : Str) (hj : corpus[j]? = some lj) (hw : lineHasWord q lj = true)
    (hfirst : ∀ (m : Nat) (lm : Str), m < j → corpus[m]? = some lm →
      lineHasWord q lm = false) :
    resolve corpus (Selector.query q) = ZenResult.ok lj j := by
  have h := phase1_some_first corpus 0 j lj hj hw hfirst
  rw [Nat.zero_add] at h
  rw [resolve, h]

/-- Witness for C2: the example of the spec, corpus
`["now is never", "Now is better than never."]` with query `"now"`, resolves
to line 0, not line 1. -/
theorem zen_c2_first_exact_word_wins_witness :
    resolve [ofString "now is never", ofString "Now is better than never."]
        (Selector.query (ofString "now")) =
      ZenResult.ok (ofString "now is never") 0 :=
  zen_c2_first_exact_word_wins
    [ofString "now is never", ofString "Now is better than never."]
    (ofString "now") 0 (ofString "now is never")
    (by decide) (by decide)
    (fun m lm hm _ => absurd hm (Nat.not_lt_zero m))

/-- C3: an integer selector inside the closed interval `[-L, L-1]` resolves
to the line at normalized index `((n % L) + L) % L` together with that index,
and an integer outside the interval fails with
`OutOfRange(lowerBound = -L, upperBound = L-1)`. -/
theorem zen_c3_index_selector (corpus : List Str) (n : Int) :
    ((-(corpus.length : Int) ≤ n ∧ n ≤ (corpus.length : Int) - 1) →
      ∃ line,
        (corpus[((n % (corpus.length : Int) + (corpus.length : Int)) %
            (corpus.length : Int)).toNat]? = some line) ∧
        resolve corpus (Selector.index n) =
          ZenResult.ok line ((n % (corpus.length : Int) + (corpus.length : Int)) %
            (corpus.length : Int)).toNat) ∧
    (¬ (-(corpus.length : Int) ≤ n ∧ n ≤ (corpus.length : Int) - 1) →
      resolve corpus (Selector.index n) =
        ZenResult.outOfRange (-(corpus.length : Int)) ((corpus.length : Int) - 1)) := by
  constructor
  · intro h
    rw [emod_norm]
    exact resolve_index_in_range h.1 h.2
  · exact resolve_index_out_of_range

/-- Witness for C3 on a single-line corpus: `Index(-1)` succeeds with the
(only) line at normalized index 0, and `Index(5)` fails with
`OutOfRange(-1, 0)`. -/
theorem zen_c3_index_selector_witness :
    (∃ line, (([ofString "only"] : List Str)[(0 : Nat)]? = some line) ∧
      resolve [ofString "only"] (Selector.index (-1)) = ZenResult.ok line 0) ∧
    resolve [ofString "only"] (Selector.index 5) = ZenResult.outOfRange (-1) 0 := by
  constructor
  · exact (zen_c3_index_selector [ofString "only"] (-1)).1 (by decide)
  · exact (zen_c3_index_selector [ofString "only"] 5).2 (by decide)

/-- C4, counterexample: for the corpus `["aaaaa", "bbbbb"]` of the claim and
the query `"ab"` (no exact word match, equal similarity to both lines), both
adjusted scores are 0 because both lines have length exactly 5, so `resolve`
fails with `NoMatch` instead of returning the first line at index 0. -/
theorem zen_c4_len5_tie_cex :
    lineHasWord (ofString "ab") (ofString "aaaaa") = false ∧
    lineHasWord (ofString "ab") (ofString "bbbbb") = false ∧
    scoreSq (ofString "ab") (ofString "aaaaa") = scoreSq (ofString "ab") (ofString "bbbbb") ∧
    resolve [ofString "aaaaa", ofString "bbbbb"] (Selector.query (ofString "ab")) =
      ZenResult.noMatch ∧
    ZenResult.noMatch ≠ ZenResult.ok (ofString "aaaaa") 0 := by
  with_unfolding_all decide

/-- C4, amended: the first-line tie-break does hold once the equal adjusted
scores are strictly positive: for corpus `["aaaaaa", "bbbbbb"]` (length-6
lines) and the equally dissimilar query `"ab"`, both adjusted scores are the
same positive value and `resolve` returns the first such line, index 0. -/
theorem zen_c4_tie_break_first_line :
    lineHasWord (ofString "ab") (ofString "aaaaaa") = false ∧
    lineHasWord (ofString "ab") (ofString "bbbbbb") = false ∧
    scoreSq (ofString "ab") (ofString "aaaaaa") = scoreSq (ofString "ab") (ofString "bbbbbb") ∧
    0 < scoreSq (ofString "ab") (ofString "aaaaaa") ∧
    resolve [ofString "aaaaaa", ofString "bbbbbb"] (Selector.query (ofString "ab")) =
      ZenResult.ok (ofString "aaaaaa") 0 := by
  with_unfolding_all decide

/-- C5: whenever phase 2 returns a line, that line has a strictly positive
adjusted score, no line of the corpus scores higher, and every strictly
earlier line scores strictly lower — the first line attaining the maximum is
returned, because the running best is only replaced on a strictly greater
score. Scores are compared in the squared representation, which preserves
their order. -/
theorem zen_c5_phase2_first_max (q : Str) (corpus : List Str) (l : Str) (i : Nat)
    (h : phase2 q corpus = ZenResult.ok l i) :
    (corpus[i]? = some l) ∧ (∀ x ∈ corpus, 5 ≤ x.length) ∧ 0 < scoreSq q l ∧
    (∀ (j : Nat) (lj : Str), corpus[j]? = some lj → scoreSq q lj ≤ scoreSq q l) ∧
    (∀ (j : Nat) (lj : Str), j < i → corpus[j]? = some lj →
      scoreSq q lj < scoreSq q l) := by
  rw [phase2] at h
  obtain ⟨hall5, hd⟩ := phase2Aux_ok_spec q corpus 0 [] 0 0 l i h
  rcases hd with ⟨_, _, hne, _⟩ | ⟨j, hj, hr, hpos, hle, hstrict⟩
  · exact absurd rfl hne
  · have hij : i = j := by omega
    subst hij
    exact ⟨hj, hall5, hpos, hle, fun j2 lj hlt hj2 => hstrict j2 lj hlt hj2⟩

/-- Witness for C5: for corpus `["aaaaaa", "abcdef"]` and query `"ab"`,
phase 2 returns line 1, which strictly beats line 0. -/
theorem zen_c5_phase2_first_max_witness :
    (([ofString "aaaaaa", ofString "abcdef"] : List Str)[(1 : Nat)]? =
      some (ofString "abcdef")) ∧
    (∀ x ∈ ([ofString "aaaaaa", ofString "abcdef"] : List Str), 5 ≤ x.length) ∧
    0 < scoreSq (ofString "ab") (ofString "abcdef") ∧
    (∀ (j : Nat) (lj : Str),
      ([ofString "aaaaaa", ofString "abcdef"] : List Str)[j]? = some lj →
      scoreSq (ofString "ab") lj ≤ scoreSq (ofString "ab") (ofString "abcdef")) ∧
    (∀ (j : Nat) (lj : Str), j < 1 →
      ([ofString "aaaaaa", ofString "abcdef"] : List Str)[j]? = some lj →
      scoreSq (ofString "ab") lj < scoreSq (ofString "ab") (ofString "abcdef")) :=
  zen_c5_phase2_first_max (ofString "ab") [ofString "aaaaaa", ofString "abcdef"]
    (ofString "abcdef") 1 (by with_unfolding_all decide)

/-- C6, counterexample: for the corpus `["hi"]` (a line shorter than 5
characters) and the query `"x"`, no exact word match exists and no line
produces a strictly positive adjusted score, yet `resolve` does not fail
with `NoMatch`: it crashes with a `TypeError` on the complex score. -/
theorem zen_c6_crash_cex :
    lineHasWord (ofString "x") (ofString "hi") = false ∧
    adjustedSq (ofString "x") (ofString "hi") = none ∧
    resolve [ofString "hi"] (Selector.query (ofString "x")) = ZenResult.crash ∧
    ZenResult.crash ≠ ZenResult.noMatch := by
  decide

/-- C6, amended: a query fails with `NoMatch` exactly when no line has an
exact whole-word match, every line has length at least 5 (so that every
adjusted score is real and the loop does not crash), and no line has a
strictly positive adjusted score. -/
theorem zen_c6_noMatch_characterization (corpus : List Str) (q : Str) :
    resolve corpus (Selector.query q) = ZenResult.noMatch ↔
      ((∀ x ∈ corpus, lineHasWord q x = false) ∧
        ∀ x ∈ corpus, 5 ≤ x.length ∧ scoreSq q x ≤ 0) := by
  rw [resolve]
  cases hp : phase1 q corpus 0 with
  | some v =>
      obtain ⟨line, r⟩ := v
      constructor
      · intro h
        exact absurd h (fun hh => ZenResult.noConfusion hh)
      · rintro ⟨hnw, _⟩
        obtain ⟨j, _, hj, hw⟩ := phase1_some_spec corpus 0 line r hp
        have hmem : line ∈ corpus := List.getElem?_mem hj
        simp [hnw line hmem] at hw
  | none =>
      have hnw := (phase1_none_iff corpus 0).mp hp
      constructor
      · intro h
        refine ⟨hnw, ?_⟩
        exact (phase2Aux_noMatch_iff q corpus 0 0).mp (by rw [← phase2]; exact h)
      · rintro ⟨_, hall⟩
        have h2 : phase2 q corpus = ZenResult.noMatch := by
          rw [phase2]
          exact (phase2Aux_noMatch_iff q corpus 0 0).mpr hall
        exact h2

/-- C7, counterexample: queries and their uppercased forms do not always
resolve identically, because `str.upper` has one-to-many special casings.
For the query `"ß"` (whose uppercase is `"SS"` while its lowercase is
itself) and the corpus `["ss ss ss"]`, the original query fails with
`NoMatch`, but the uppercased query finds an exact word match at line 0. -/
theorem zen_c7_eszett_cex :
    pyUpper (ofString "ß") = ofString "SS" ∧
    resolve [ofString "ss ss ss"] (Selector.query (ofString "ß")) =
      ZenResult.noMatch ∧
    resolve [ofString "ss ss ss"] (Selector.query (pyUpper (ofString "ß"))) =
      ZenResult.ok (ofString "ss ss ss") 0 ∧
    ZenResult.noMatch ≠ ZenResult.ok (ofString "ss ss ss") 0 := by
  with_unfolding_all decide

/-- C7, amended: both phases use the query only through its lowercased
form, so two queries with the same lowercase resolve identically over
every corpus; in particular, for every ASCII query (each code point below
128, where the case mappings are one-to-one) a query and its uppercased
form — such as `"now"` and `"NOW"` — yield identical results. -/
theorem zen_c7_lowercase_determined :
    (∀ (corpus : List Str) (q1 q2 : Str), pyLower q1 = pyLower q2 →
      resolve corpus (Selector.query q1) = resolve corpus (Selector.query q2)) ∧
    (∀ (corpus : List Str) (s : Str), (∀ c ∈ s, c < 128) →
      resolve corpus (Selector.query (pyUpper s)) = resolve corpus (Selector.query s)) :=
  ⟨fun corpus _ _ h => resolve_query_congr h corpus,
   fun corpus _ hs => resolve_query_congr (pyLower_pyUpper_ascii hs) corpus⟩

/-- Witness for C7 at the queries `"NOW"` and `"now"` over a corpus with
the matching line of the spec example. -/
theorem zen_c7_lowercase_determined_witness :
    resolve [ofString "Now is better than never."] (Selector.query (ofString "NOW")) =
      resolve [ofString "Now is better than never."] (Selector.query (ofString "now")) ∧
    resolve [ofString "Now is better than never."]
        (Selector.query (pyUpper (ofString "now"))) =
      resolve [ofString "Now is better than never."] (Selector.query (ofString "now")) :=
  ⟨zen_c7_lowercase_determined.1 [ofString "Now is better than never."]
      (ofString "NOW") (ofString "now") (by decide),
   zen_c7_lowercase_determined.2 [ofString "Now is better than never."]
      (ofString "now") (by decide)⟩

/-- C8: every successful resolution is consistent — the returned line is the
corpus element at the returned index, on the index path, the exact-word path
and the fuzzy path alike. -/
theorem zen_c8_index_line_consistent (corpus : List Str) (sel : Selector)
    (l : Str) (i : Nat) (h : resolve corpus sel = ZenResult.ok l i) :
    corpus[i]? = some l := by
  cases sel with
  | index n =>
      by_cases hb : -(corpus.length : Int) ≤ n ∧ n ≤ (corpus.length : Int) - 1
      · obtain ⟨line, hline, hres⟩ := resolve_index_in_range hb.1 hb.2
        rw [hres] at h
        injection h with h1 h2
        subst h1
        subst h2
        exact hline
      · rw [resolve_index_out_of_range hb] at h
        exact absurd h (fun hh => ZenResult.noConfusion hh)
  | query s =>
      rw [resolve] at h
      cases hp : phase1 s corpus 0 with
      | some v =>
          obtain ⟨line, r⟩ := v
          rw [hp] at h
          have h2 : ZenResult.ok line r = ZenResult.ok l i := h
          injection h2 with ha hb
          obtain ⟨j, hj1, hj2, _⟩ := phase1_some_spec corpus 0 line r hp
          rw [← ha, ← hb]
          have hrj : r = j := by omega
          rw [hrj]
          exact hj2
      | none =>
          rw [hp] at h
          have h2 : phase2Aux s corpus 0 [] 0 0 = ZenResult.ok l i := h
          obtain ⟨_, hd⟩ := phase2Aux_ok_spec s corpus 0 [] 0 0 l i h2
          rcases hd with ⟨_, _, hne, _⟩ | ⟨j, hj, hr, _, _, _⟩
          · exact absurd rfl hne
          · have hij : i = j := by omega
            subst hij
            exact hj

/-- Witness for C8 on the index path. -/
theorem zen_c8_index_line_consistent_witness :
    ([ofString "alpha", ofString "beta"] : List Str)[(1 : Nat)]? =
      some (ofString "beta") :=
  zen_c8_index_line_consistent [ofString "alpha", ofString "beta"]
    (Selector.index 1) (ofString "beta") 1 (by decide)

/-- C9: whitespace splitting never produces an empty word, so the empty
query can never match in phase 1; and over a corpus whose lines all have
length at least 5, its similarity to every line is 0, so the empty query
fails with `NoMatch`. -/
theorem zen_c9_empty_query :
    (∀ (s w : Str), w ∈ words s → w ≠ []) ∧
    ∀ corpus : List Str, (∀ x ∈ corpus, 5 ≤ x.length) →
      resolve corpus (Selector.query []) = ZenResult.noMatch := by
  constructor
  · intro s w hw
    exact words_ne_nil hw
  · intro corpus hc
    have h1 : phase1 [] corpus 0 = none :=
      (phase1_none_iff corpus 0).mpr (fun l _ => lineHasWord_empty_query l)
    rw [resolve, h1]
    have h2 : phase2 [] corpus = ZenResult.noMatch := by
      rw [phase2]
      exact (phase2Aux_noMatch_iff [] corpus 0 0).mpr
        (fun x hx => ⟨hc x hx, le_of_eq (scoreSq_empty_query (hc x hx))⟩)
    exact h2

/-- Witness for C9 at the corpus `["hello"]`. -/
theorem zen_c9_empty_query_witness :
    resolve [ofString "hello"] (Selector.query []) = ZenResult.noMatch :=
  zen_c9_empty_query.2 [ofString "hello"] (by decide)

/-- C10: `resolve` is a pure function of the corpus and the selector — two
results of the same call are equal (and the corpus, an immutable value, is
untouched). -/
theorem zen_c10_deterministic (corpus : List Str) (sel : Selector)
    (r1 r2 : ZenResult) (h1 : resolve corpus sel = r1)
    (h2 : resolve corpus sel = r2) : r1 = r2 := by
  rw [← h1, ← h2]

/-- Witness for C10 on the real Zen corpus. -/
theorem zen_c10_deterministic_witness :
    ZenResult.ok (ofString "Sparse is better than dense.") 5 =
      ZenResult.ok (ofString "Sparse is better than dense.") 5 :=
  zen_c10_deterministic zenLines (Selector.index 5)
    (ZenResult.ok (ofString "Sparse is better than dense.") 5)
    (ZenResult.ok (ofString "Sparse is better than dense.") 5)
    (by decide) (by decide)

end Zen
